import Mathlib

/-!
Formal model of the NTNU INGInious multifill plugin's subtask-selection core
(`ntnu_inginious_multifill/__init__.py`): the subtask-string grammar parser
(`SubtaskString.__init__`), the deterministic bag/pull sampler
(`SubtaskString.sample_subtasks`), the score-string parser
(`ScoreString.__init__`), the default constructors, and the
problem-construction glue (`MultifillProblem.__init__`).

Python integers are modelled as `Int` (they are unbounded), Python
exceptions as `Except`, `dict.get`/optional keys as `Option`.
-/

namespace Multifill

/-- The ASCII whitespace characters recognised by CPython's `str.strip()` and
by the whitespace skipping of `int(str)`.  (Unicode whitespace, which CPython
also accepts, does not occur in the grammar and is left out of the model.) -/
def isPySpace (c : Char) : Bool :=
  c = ' ' || c = '\t' || c = '\n' || c = '\r' || c = '\x0b' || c = '\x0c'

/-- Numeric value of a decimal digit character. -/
def digitVal (c : Char) : Nat := c.toNat - '0'.toNat

/-- Continuation of a decimal-literal scan: after at least one digit has been
read, CPython's `int(str)` accepts further digits with single underscores
allowed only between two digits. -/
def pyDigitsRest : List Char → Nat → Option Nat
  | [], acc => some acc
  | '_' :: c :: cs, acc =>
    if c.isDigit then pyDigitsRest cs (acc * 10 + digitVal c) else none
  | ['_'], _ => none
  | c :: cs, acc =>
    if c.isDigit then pyDigitsRest cs (acc * 10 + digitVal c) else none

/-- A nonempty decimal-digit run (with CPython's underscore rule). -/
def pyDigits : List Char → Option Nat
  | [] => none
  | c :: cs => if c.isDigit then pyDigitsRest cs (digitVal c) else none

/-- Drop leading and trailing whitespace, as `str.strip()` does. -/
def pyStripChars (cs : List Char) : List Char :=
  ((cs.dropWhile (fun c => isPySpace c)).reverse.dropWhile
      (fun c => isPySpace c)).reverse

/-- Python's `str.strip()` (ASCII whitespace). -/
def pyStrip (s : String) : String := String.mk (pyStripChars s.toList)

/-- CPython's `int(str)` in base 10 on ASCII input: optional surrounding
whitespace, an optional single sign, then a nonempty digit run; `none` models
the `ValueError` raised on anything else. -/
def pyIntChars (cs : List Char) : Option Int :=
  match pyStripChars cs with
  | '+' :: rest => (pyDigits rest).map (fun n => (n : Int))
  | '-' :: rest => (pyDigits rest).map (fun n => -(n : Int))
  | rest => (pyDigits rest).map (fun n => (n : Int))

/-- Python's `str.split(sep)` for a one-character separator (the only kind the
plugin uses: `";"`, `","`, `"/"`).  Splitting the empty string yields `[""]`,
and adjacent separators yield empty fields, as in Python. -/
def splitChar (sep : Char) : List Char → List (List Char)
  | [] => [[]]
  | c :: cs =>
    if c = sep then [] :: splitChar sep cs
    else
      match splitChar sep cs with
      | [] => [[c]]
      | t :: ts => (c :: t) :: ts

/-- The `ValueError` kinds raised by `SubtaskString.__init__`, in the order
the checks appear in the source. -/
inductive SubtaskErr
  | illegalGroup
  | negativePull
  | emptyBag
  | pullExceedsBag
deriving DecidableEq, Repr

/-- A successfully constructed `SubtaskString` object: the original string,
the two running totals, and the parsed `(pull, bag)` groups gathered into
loose groups (segments). -/
structure SubtaskSpec where
  string : String
  total_pull : Int
  total_bag : Int
  groups : List (List (Int × Int))
deriving DecidableEq, Repr

/-- One token of a segment: if it contains `"/"` it must split into exactly
two fields (Python's 2-tuple unpacking raises `ValueError` on any other
arity, caught by the same handler as a failed `int()` conversion), otherwise
`pull = bag = token`; both sides then go through `int()`. -/
def parseGroup (g : List Char) : Option (Int × Int) :=
  match (if g.contains '/' then
           match splitChar '/' g with
           | [p, b] => some (p, b)
           | _ => none
         else some (g, g)) with
  | none => none
  | some (p, b) =>
    match pyIntChars p, pyIntChars b with
    | some pull, some bag => some (pull, bag)
    | _, _ => none

/-- The per-token body of the parsing loop: convert the token and run the
three range checks in source order. -/
def checkGroup (g : List Char) : Except SubtaskErr (Int × Int) :=
  match parseGroup g with
  | none => .error .illegalGroup
  | some (pull, bag) =>
    if pull < 0 then .error .negativePull
    else if bag < 1 then .error .emptyBag
    else if pull > bag then .error .pullExceedsBag
    else .ok (pull, bag)

/-- The inner loop over one semicolon segment, threading the running totals.
(The source adds to the totals before the range checks; since a raised error
discards the partially built object, adding after the checks is
observationally identical.) -/
def parseSeg : List (List Char) → Int → Int →
    Except SubtaskErr (List (Int × Int) × Int × Int)
  | [], tp, tb => .ok ([], tp, tb)
  | g :: gs, tp, tb =>
    match checkGroup g with
    | .error e => .error e
    | .ok (pull, bag) =>
      match parseSeg gs (tp + pull) (tb + bag) with
      | .error e => .error e
      | .ok (rest, tp2, tb2) => .ok ((pull, bag) :: rest, tp2, tb2)

/-- The outer loop over semicolon segments. -/
def parseSegs : List (List (List Char)) → Int → Int →
    Except SubtaskErr (List (List (Int × Int)) × Int × Int)
  | [], tp, tb => .ok ([], tp, tb)
  | seg :: segs, tp, tb =>
    match parseSeg seg tp tb with
    | .error e => .error e
    | .ok (lg, tp2, tb2) =>
      match parseSegs segs tp2 tb2 with
      | .error e => .error e
      | .ok (rest, tp3, tb3) => .ok (lg :: rest, tp3, tb3)

/-- `SubtaskString.__init__`: split on `";"`, each segment on `","`, parse
and validate every group, and build the object. -/
def SubtaskString.mk? (s : String) : Except SubtaskErr SubtaskSpec :=
  match parseSegs ((splitChar ';' s.toList).map (splitChar ',')) 0 0 with
  | .error e => .error e
  | .ok (groups, tp, tb) => .ok ⟨s, tp, tb, groups⟩

/-- `SubtaskString.default_for_subtasks`: parse `";".join(["1"] * n)`. -/
def SubtaskString.default_for_subtasks (n : Nat) : Except SubtaskErr SubtaskSpec :=
  SubtaskString.mk? (String.intercalate ";" (List.replicate n "1"))

/-- All group tokens of a subtask string, in the order the source's nested
loops visit them. -/
def allTokens (s : String) : List (List Char) :=
  ((splitChar ';' s.toList).map (splitChar ',')).flatten

/-- Modelled from the spec: the source seeds Python's `random.Random` (a
standard-library class, not code of this repository) with the string
`"{task_id}#{seed}"` and uses only `Random.sample` (an unordered
without-replacement draw) and `Random.shuffle` (an in-place permutation).
Following §9 of the design, the generator is abstracted as an explicit
deterministic PRNG: a state type, a pure seeding function, and pure
`sample`/`shuffle` operations carrying exactly the contracts Python
documents for them. -/
structure PRNG (σ : Type) where
  init : String → σ
  sample : σ → List Nat → Nat → List Nat × σ
  shuffle : σ → List Nat → List Nat × σ
  sample_length : ∀ st pop k, k ≤ pop.length → (sample st pop k).1.length = k
  sample_subset : ∀ st pop k, ∀ x ∈ (sample st pop k).1, x ∈ pop
  sample_nodup : ∀ st pop k, pop.Nodup → (sample st pop k).1.Nodup
  shuffle_perm : ∀ st l, ((shuffle st l).1).Perm l

/-- A concrete (degenerate but contract-satisfying) generator, used to
instantiate the abstract theorems on closed inputs. -/
def takePRNG : PRNG Unit where
  init _ := ()
  sample _ pop k := (pop.take k, ())
  shuffle _ l := (l, ())
  sample_length := fun _ pop k h => by
    simpa using Nat.min_eq_left h
  sample_subset := fun _ _ _ _ hx => List.mem_of_mem_take hx
  sample_nodup := fun _ pop k h => h.sublist (List.take_sublist k pop)
  shuffle_perm := fun _ l => List.Perm.refl l

/-- The body of the sampler's inner loop (lines 113–117 of the source): take
the next `bag` indices as the group's pool, draw `pull` of them, extend the
per-segment accumulator, advance the cursor.  State is
`(shuffler, bag_counter, generator)`. -/
def pickStep {σ : Type} (P : PRNG σ) (acc : List Nat × Nat × σ)
    (pb : Int × Int) : List Nat × Nat × σ :=
  let pool := List.range' acc.2.1 pb.2.toNat
  let pk := P.sample acc.2.2 pool pb.1.toNat
  (acc.1 ++ pk.1, acc.2.1 + pb.2.toNat, pk.2)

/-- The body of the sampler's outer loop (lines 108–120): run the inner loop
with a fresh accumulator, shuffle the accumulator, append it to the result.
State is `(result, bag_counter, generator)`. -/
def segStep {σ : Type} (P : PRNG σ) (acc : List Nat × Nat × σ)
    (lg : List (Int × Int)) : List Nat × Nat × σ :=
  let r := lg.foldl (pickStep P) ([], acc.2.1, acc.2.2)
  let sh := P.shuffle r.2.2 r.1
  (acc.1 ++ sh.1, r.2.1, sh.2)

/-- Both sampler loops, from an initial generator state. -/
def runGroups {σ : Type} (P : PRNG σ) (gs : List (List (Int × Int)))
    (st : σ) : List Nat × Nat × σ :=
  gs.foldl (segStep P) ([], 0, st)

/-- `SubtaskString.sample_subtasks`: seed a fresh generator from
`"{task_id}#{seed}"`, run the loops, and check the final
`assert bag_counter == self.total_bag` (`none` models the
`AssertionError`). -/
def SubtaskSpec.sample_subtasks {σ : Type} (P : PRNG σ) (spec : SubtaskSpec)
    (task_id seed : String) : Option (List Nat) :=
  let rand := P.init (task_id ++ "#" ++ seed)
  let r := runGroups P spec.groups rand
  if ((r.2.1 : Int) = spec.total_bag) then some r.1 else none

/-- The `ValueError` kinds raised by `ScoreString.__init__`, in source
order. -/
inductive ScoreErr
  | wrongParts
  | illegalScore
  | minimumRange
  | expectedRange
  | negativeTotal
deriving DecidableEq, Repr

/-- A successfully constructed `ScoreString` object. -/
structure ScoreSpec where
  string : String
  minimum : Int
  expected : Int
  total : Int
deriving DecidableEq, Repr

/-- `ScoreString.__init__`: split on `"/"`, require exactly three fields,
convert all three with `int()` (one error kind for any conversion failure),
then the three range checks in source order. -/
def ScoreString.mk? (s : String) : Except ScoreErr ScoreSpec :=
  match splitChar '/' s.toList with
  | [a, b, c] =>
    match pyIntChars a, pyIntChars b, pyIntChars c with
    | some m, some e, some t =>
      if m < 0 ∨ m > t then .error .minimumRange
      else if e < 0 ∨ e > t then .error .expectedRange
      else if t < 0 then .error .negativeTotal
      else .ok ⟨s, m, e, t⟩
    | _, _, _ => .error .illegalScore
  | _ => .error .wrongParts

/-- `ScoreString.default_for_subtasks`: parse `f"0/{n}/{n}"`. -/
def ScoreString.default_for_subtasks (n : Nat) : Except ScoreErr ScoreSpec :=
  ScoreString.mk? ("0/" ++ toString n ++ "/" ++ toString n)

/-- One subtask dict, reduced to the only key `__init__` inspects:
`text` (`none` models an absent key). -/
structure Subtask where
  text : Option String
deriving DecidableEq, Repr

/-- The `content` dict of a multifill problem, reduced to the keys
`MultifillProblem.__init__` reads.  `subtasks = none` models a missing key or
a non-list value; `none` for the strings models a missing key. -/
structure Content where
  header : String
  subtasks : Option (List Subtask)
  subtask_string : Option String
  score_string : Option String

/-- The `ValueError` kinds raised by `MultifillProblem.__init__`, wrapping
the two parsers' errors. -/
inductive ProblemErr
  | noSubtasks
  | missingText (index : Nat)
  | subtask (e : SubtaskErr)
  | bagMismatch (numSubtasks : Nat) (totalBag : Int)
  | score (e : ScoreErr)
deriving DecidableEq, Repr

/-- A successfully constructed `MultifillProblem` (the fields set by
`__init__` that the core owns). -/
structure MultifillProblem where
  header : String
  subtasks : List Subtask
  subtask_string : SubtaskSpec
  score_string : ScoreSpec
deriving DecidableEq, Repr

/-- The `for index, subtask in enumerate(...)` loop checking every subtask
has a `text` key. -/
def checkTexts : Nat → List Subtask → Except ProblemErr Unit
  | _, [] => .ok ()
  | i, st :: rest =>
    if st.text.isNone then .error (.missingText i) else checkTexts (i + 1) rest

/-- Lines 193–196 of the source: parse `content["subtask_string"]` when the
value (defaulting to `""`) is non-empty after stripping, otherwise
synthesize the default from the subtasks. -/
def chosenSubtaskString (c : Content) (subs : List Subtask) :
    Except SubtaskErr SubtaskSpec :=
  if pyStrip (c.subtask_string.getD "") ≠ "" then
    SubtaskString.mk? (c.subtask_string.getD "")
  else SubtaskString.default_for_subtasks subs.length

/-- Lines 207–210 of the source: the same selection for the score string. -/
def chosenScoreString (c : Content) (subs : List Subtask) :
    Except ScoreErr ScoreSpec :=
  if pyStrip (c.score_string.getD "") ≠ "" then
    ScoreString.mk? (c.score_string.getD "")
  else ScoreString.default_for_subtasks subs.length

/-- `MultifillProblem.__init__` (the validation part): subtasks must be
present and a list, every subtask must have text, the subtask string is
parsed or defaulted, its total bag must equal the subtask count, and the
score string is parsed or defaulted. -/
def mkMultifillProblem (c : Content) : Except ProblemErr MultifillProblem :=
  match c.subtasks with
  | none => .error .noSubtasks
  | some subs =>
    match checkTexts 0 subs with
    | .error e => .error e
    | .ok () =>
      match chosenSubtaskString c subs with
      | .error e => .error (.subtask e)
      | .ok sspec =>
        if (subs.length : Int) ≠ sspec.total_bag then
          .error (.bagMismatch subs.length sspec.total_bag)
        else
          match chosenScoreString c subs with
          | .error e => .error (.score e)
          | .ok score => .ok ⟨c.header, subs, sspec, score⟩

/-- The parsed form of the spec's concrete example string `"1;1/2,1"`. -/
def spec134 : SubtaskSpec :=
  ⟨"1;1/2,1", 3, 4, [[(1, 1)], [(1, 2), (1, 1)]]⟩

example : SubtaskString.mk? "1;1/2,1" = .ok spec134 := rfl

example : ScoreString.mk? "2/3/4" = .ok ⟨"2/3/4", 2, 3, 4⟩ := rfl

example : pyIntChars " -1_2 ".toList = some (-12) := rfl

/-! ### Parser lemmas -/

theorem checkGroup_ok_cond {g : List Char} {p b : Int}
    (h : checkGroup g = .ok (p, b)) :
    parseGroup g = some (p, b) ∧ 0 ≤ p ∧ 1 ≤ b ∧ p ≤ b := by
  unfold checkGroup at h
  cases hpg : parseGroup g <;> rw [hpg] at h
  · simp at h
  · rename_i pb
    obtain ⟨p', b'⟩ := pb
    dsimp only at h
    split_ifs at h with h1 h2 h3
    obtain ⟨rfl, rfl⟩ := h
    exact ⟨rfl, by omega, by omega, by omega⟩

theorem checkGroup_ok_of_cond {g : List Char} {p b : Int}
    (hpg : parseGroup g = some (p, b)) (h1 : 0 ≤ p) (h2 : 1 ≤ b)
    (h3 : p ≤ b) : checkGroup g = .ok (p, b) := by
  unfold checkGroup
  rw [hpg]
  dsimp only
  rw [if_neg (by omega), if_neg (by omega), if_neg (by omega)]

theorem checkGroup_illegal_iff (g : List Char) :
    checkGroup g = .error .illegalGroup ↔ parseGroup g = none := by
  unfold checkGroup
  cases hpg : parseGroup g
  · simp
  · rename_i pb
    obtain ⟨p, b⟩ := pb
    dsimp only
    split_ifs <;> simp

theorem checkGroup_negative_iff (g : List Char) :
    checkGroup g = .error .negativePull ↔
      ∃ p b, parseGroup g = some (p, b) ∧ p < 0 := by
  unfold checkGroup
  cases hpg : parseGroup g
  · simp
  · rename_i pb
    obtain ⟨p, b⟩ := pb
    dsimp only
    split_ifs with h1 h2 h3 <;> simp <;> omega

theorem checkGroup_empty_iff (g : List Char) :
    checkGroup g = .error .emptyBag ↔
      ∃ p b, parseGroup g = some (p, b) ∧ 0 ≤ p ∧ b < 1 := by
  unfold checkGroup
  cases hpg : parseGroup g
  · simp
  · rename_i pb
    obtain ⟨p, b⟩ := pb
    dsimp only
    split_ifs with h1 h2 h3 <;> simp
    · omega
    · exact ⟨p, b, ⟨rfl, rfl⟩, by omega, by omega⟩
    · omega
    · omega

theorem checkGroup_exceeds_iff (g : List Char) :
    checkGroup g = .error .pullExceedsBag ↔
      ∃ p b, parseGroup g = some (p, b) ∧ 0 ≤ p ∧ 1 ≤ b ∧ b < p := by
  unfold checkGroup
  cases hpg : parseGroup g
  · simp
  · rename_i pb
    obtain ⟨p, b⟩ := pb
    dsimp only
    split_ifs with h1 h2 h3 <;> simp
    · omega
    · omega
    · exact ⟨p, b, ⟨rfl, rfl⟩, by omega, by omega, by omega⟩
    · omega

theorem checkGroup_ok_iff (g : List Char) :
    (∃ pb : Int × Int, checkGroup g = .ok pb) ↔
      ∃ p b, parseGroup g = some (p, b) ∧ 0 ≤ p ∧ 1 ≤ b ∧ p ≤ b := by
  constructor
  · rintro ⟨⟨p, b⟩, h⟩
    obtain ⟨h0, h1, h2, h3⟩ := checkGroup_ok_cond h
    exact ⟨p, b, h0, h1, h2, h3⟩
  · rintro ⟨p, b, h0, h1, h2, h3⟩
    exact ⟨(p, b), checkGroup_ok_of_cond h0 h1 h2 h3⟩

theorem parseSeg_ok (gs : List (List Char)) :
    ∀ (tp tb : Int) (lg : List (Int × Int)) (tp2 tb2 : Int),
      parseSeg gs tp tb = .ok (lg, tp2, tb2) →
      tp2 = tp + (lg.map Prod.fst).sum ∧
      tb2 = tb + (lg.map Prod.snd).sum ∧
      ∀ pb ∈ lg, 0 ≤ pb.1 ∧ 1 ≤ pb.2 ∧ pb.1 ≤ pb.2 := by
  induction gs with
  | nil =>
    intro tp tb lg tp2 tb2 h
    simp only [parseSeg, Except.ok.injEq, Prod.mk.injEq] at h
    obtain ⟨h1, h2, h3⟩ := h
    subst h1; subst h2; subst h3
    simp
  | cons g gs ih =>
    intro tp tb lg tp2 tb2 h
    simp only [parseSeg] at h
    split at h
    · simp at h
    · rename_i pull bag heq
      split at h
      · simp at h
      · rename_i rest tp3 tb3 heq2
        simp only [Except.ok.injEq, Prod.mk.injEq] at h
        obtain ⟨h1, h2, h3⟩ := h
        rw [← h1, ← h2, ← h3]
        obtain ⟨ih1, ih2, ih3⟩ := ih (tp + pull) (tb + bag) rest tp3 tb3 heq2
        obtain ⟨_, hc1, hc2, hc3⟩ := checkGroup_ok_cond heq
        refine ⟨?_, ?_, ?_⟩
        · simp only [List.map_cons, List.sum_cons]; omega
        · simp only [List.map_cons, List.sum_cons]; omega
        · intro pb hpb
          rcases List.mem_cons.mp hpb with hh | ht
          · subst hh; exact ⟨hc1, hc2, hc3⟩
          · exact ih3 pb ht

theorem parseSeg_ok_tokens (gs : List (List Char)) :
    ∀ (tp tb : Int) (out : List (Int × Int) × Int × Int),
      parseSeg gs tp tb = .ok out →
      ∀ g ∈ gs, ∃ pb, checkGroup g = .ok pb := by
  induction gs with
  | nil => intro _ _ _ _ g hg; simp at hg
  | cons g gs ih =>
    intro tp tb out h g' hg'
    simp only [parseSeg] at h
    split at h
    · simp at h
    · rename_i pull bag heq
      split at h
      · simp at h
      · rename_i rest tp3 tb3 heq2
        rcases List.mem_cons.mp hg' with hh | ht
        · subst hh; exact ⟨(pull, bag), heq⟩
        · exact ih _ _ _ heq2 g' ht

theorem parseSeg_total (gs : List (List Char)) :
    ∀ (tp tb : Int), (∀ g ∈ gs, ∃ pb, checkGroup g = .ok pb) →
      ∃ out, parseSeg gs tp tb = .ok out := by
  induction gs with
  | nil => intro tp tb _; exact ⟨([], tp, tb), rfl⟩
  | cons g gs ih =>
    intro tp tb h
    obtain ⟨⟨pull, bag⟩, hg⟩ := h g (List.mem_cons_self g gs)
    obtain ⟨⟨rest, tp3, tb3⟩, hrest⟩ :=
      ih (tp + pull) (tb + bag) (fun g' hg' => h g' (List.mem_cons_of_mem g hg'))
    refine ⟨((pull, bag) :: rest, tp3, tb3), ?_⟩
    simp only [parseSeg, hg, hrest]

theorem parseSeg_error (gs : List (List Char)) :
    ∀ (tp tb : Int) (e : SubtaskErr), parseSeg gs tp tb = .error e →
      ∃ g ∈ gs, checkGroup g = .error e := by
  induction gs with
  | nil => intro _ _ _ h; simp [parseSeg] at h
  | cons g gs ih =>
    intro tp tb e h
    simp only [parseSeg] at h
    split at h
    · rename_i e1 heq
      simp only [Except.error.injEq] at h
      rw [← h]
      exact ⟨g, List.mem_cons_self g gs, heq⟩
    · rename_i pull bag heq
      split at h
      · rename_i e1 heq2
        simp only [Except.error.injEq] at h
        rw [← h]
        obtain ⟨g', hg', hcg⟩ := ih _ _ e1 heq2
        exact ⟨g', List.mem_cons_of_mem g hg', hcg⟩
      · simp at h

theorem parseSegs_ok (segs : List (List (List Char))) :
    ∀ (tp tb : Int) (gs : List (List (Int × Int))) (tp2 tb2 : Int),
      parseSegs segs tp tb = .ok (gs, tp2, tb2) →
      tp2 = tp + (gs.map (fun lg => (lg.map Prod.fst).sum)).sum ∧
      tb2 = tb + (gs.map (fun lg => (lg.map Prod.snd).sum)).sum ∧
      ∀ lg ∈ gs, ∀ pb ∈ lg, 0 ≤ pb.1 ∧ 1 ≤ pb.2 ∧ pb.1 ≤ pb.2 := by
  induction segs with
  | nil =>
    intro tp tb gs tp2 tb2 h
    simp only [parseSegs, Except.ok.injEq, Prod.mk.injEq] at h
    obtain ⟨h1, h2, h3⟩ := h
    subst h1; subst h2; subst h3
    simp
  | cons seg segs ih =>
    intro tp tb gs tp2 tb2 h
    simp only [parseSegs] at h
    split at h
    · simp at h
    · rename_i lg tp3 tb3 heq
      split at h
      · simp at h
      · rename_i rest tp4 tb4 heq2
        simp only [Except.ok.injEq, Prod.mk.injEq] at h
        obtain ⟨h1, h2, h3⟩ := h
        rw [← h1, ← h2, ← h3]
        obtain ⟨s1, s2, s3⟩ := parseSeg_ok seg tp tb lg tp3 tb3 heq
        obtain ⟨ih1, ih2, ih3⟩ := ih tp3 tb3 rest tp4 tb4 heq2
        refine ⟨?_, ?_, ?_⟩
        · simp only [List.map_cons, List.sum_cons]; omega
        · simp only [List.map_cons, List.sum_cons]; omega
        · intro lg' hlg'
          rcases List.mem_cons.mp hlg' with hh | ht
          · subst hh; exact s3
          · exact ih3 lg' ht

theorem parseSegs_ok_tokens (segs : List (List (List Char))) :
    ∀ (tp tb : Int) (out : List (List (Int × Int)) × Int × Int),
      parseSegs segs tp tb = .ok out →
      ∀ seg ∈ segs, ∀ g ∈ seg, ∃ pb, checkGroup g = .ok pb := by
  induction segs with
  | nil => intro _ _ _ _ seg hseg; simp at hseg
  | cons seg segs ih =>
    intro tp tb out h seg' hseg'
    simp only [parseSegs] at h
    split at h
    · simp at h
    · rename_i lg tp3 tb3 heq
      split at h
      · simp at h
      · rename_i rest tp4 tb4 heq2
        rcases List.mem_cons.mp hseg' with hh | ht
        · rw [hh]; exact parseSeg_ok_tokens seg tp tb _ heq
        · exact ih _ _ _ heq2 seg' ht

theorem parseSegs_total (segs : List (List (List Char))) :
    ∀ (tp tb : Int), (∀ seg ∈ segs, ∀ g ∈ seg, ∃ pb, checkGroup g = .ok pb) →
      ∃ out, parseSegs segs tp tb = .ok out := by
  induction segs with
  | nil => intro tp tb _; exact ⟨([], tp, tb), rfl⟩
  | cons seg segs ih =>
    intro tp tb h
    obtain ⟨⟨lg, tp3, tb3⟩, hseg⟩ :=
      parseSeg_total seg tp tb (h seg (List.mem_cons_self seg segs))
    obtain ⟨⟨rest, tp4, tb4⟩, hrest⟩ :=
      ih tp3 tb3 (fun seg' hseg' => h seg' (List.mem_cons_of_mem seg hseg'))
    refine ⟨(lg :: rest, tp4, tb4), ?_⟩
    simp only [parseSegs, hseg, hrest]

theorem parseSegs_error (segs : List (List (List Char))) :
    ∀ (tp tb : Int) (e : SubtaskErr), parseSegs segs tp tb = .error e →
      ∃ seg ∈ segs, ∃ g ∈ seg, checkGroup g = .error e := by
  induction segs with
  | nil => intro _ _ _ h; simp [parseSegs] at h
  | cons seg segs ih =>
    intro tp tb e h
    simp only [parseSegs] at h
    split at h
    · rename_i e1 heq
      simp only [Except.error.injEq] at h
      rw [← h]
      obtain ⟨g, hg, hcg⟩ := parseSeg_error seg tp tb e1 heq
      exact ⟨seg, List.mem_cons_self seg segs, g, hg, hcg⟩
    · rename_i lg tp3 tb3 heq
      split at h
      · rename_i e1 heq2
        simp only [Except.error.injEq] at h
        rw [← h]
        obtain ⟨seg', hseg', hrest⟩ := ih _ _ e1 heq2
        exact ⟨seg', List.mem_cons_of_mem seg hseg', hrest⟩
      · simp at h

/-- Facts about a successfully constructed `SubtaskString`: the totals are
the sums of the declared pulls and bags, and every group passed its
validation. -/
theorem mk_ok_spec {s : String} {spec : SubtaskSpec}
    (h : SubtaskString.mk? s = .ok spec) :
    spec.string = s ∧
    spec.total_pull = (spec.groups.map (fun lg => (lg.map Prod.fst).sum)).sum ∧
    spec.total_bag = (spec.groups.map (fun lg => (lg.map Prod.snd).sum)).sum ∧
    ∀ lg ∈ spec.groups, ∀ pb ∈ lg, 0 ≤ pb.1 ∧ 1 ≤ pb.2 ∧ pb.1 ≤ pb.2 := by
  unfold SubtaskString.mk? at h
  split at h
  · simp at h
  · rename_i groups tp tb heq
    simp only [Except.ok.injEq] at h
    subst h
    obtain ⟨h1, h2, h3⟩ := parseSegs_ok _ 0 0 groups tp tb heq
    exact ⟨rfl, by simpa using h1, by simpa using h2, h3⟩

theorem mk_ok_iff (s : String) :
    (∃ spec, SubtaskString.mk? s = .ok spec) ↔
      ∀ g ∈ allTokens s, ∃ pb, checkGroup g = .ok pb := by
  constructor
  · rintro ⟨spec, h⟩ g hg
    unfold SubtaskString.mk? at h
    split at h
    · simp at h
    · rename_i groups tp tb heq
      obtain ⟨seg, hseg, hgseg⟩ := by
        simpa only [allTokens, List.mem_flatten, List.mem_map] using hg
      obtain ⟨seg', hseg', rfl⟩ := hseg
      exact parseSegs_ok_tokens _ 0 0 _ heq _ (List.mem_map_of_mem _ hseg') g hgseg
  · intro h
    have hcond : ∀ seg ∈ (splitChar ';' s.toList).map (splitChar ','),
        ∀ g ∈ seg, ∃ pb, checkGroup g = .ok pb := by
      intro seg hseg g hgseg
      obtain ⟨seg0, hseg0, rfl⟩ := List.mem_map.mp hseg
      exact h g (by
        simp only [allTokens, List.mem_flatten, List.mem_map]
        exact ⟨splitChar ',' seg0, ⟨seg0, hseg0, rfl⟩, hgseg⟩)
    obtain ⟨⟨groups, tp, tb⟩, hps⟩ :=
      parseSegs_total ((splitChar ';' s.toList).map (splitChar ',')) 0 0 hcond
    refine ⟨⟨s, tp, tb, groups⟩, ?_⟩
    unfold SubtaskString.mk?
    rw [hps]

theorem mk_error_tokens {s : String} {e : SubtaskErr}
    (h : SubtaskString.mk? s = .error e) :
    ∃ g ∈ allTokens s, checkGroup g = .error e := by
  unfold SubtaskString.mk? at h
  split at h
  · rename_i heq
    simp only [Except.error.injEq] at h
    subst h
    obtain ⟨seg, hseg, g, hg, hcg⟩ := parseSegs_error _ 0 0 _ heq
    obtain ⟨seg0, hseg0, rfl⟩ := List.mem_map.mp hseg
    refine ⟨g, ?_, hcg⟩
    simp only [allTokens, List.mem_flatten, List.mem_map]
    exact ⟨splitChar ',' seg0, ⟨seg0, hseg0, rfl⟩, hg⟩
  · simp at h

theorem splitChar_ne_nil (sep : Char) (cs : List Char) :
    splitChar sep cs ≠ [] := by
  cases cs with
  | nil => simp [splitChar]
  | cons c cs =>
    unfold splitChar
    split
    · simp
    · split <;> simp

theorem mk_error_of_head {s : String} {seg : List Char}
    {segs : List (List Char)} {g : List Char} {gs : List (List Char)}
    {e : SubtaskErr} (h1 : splitChar ';' s.toList = seg :: segs)
    (h2 : splitChar ',' seg = g :: gs) (h3 : checkGroup g = .error e) :
    SubtaskString.mk? s = .error e := by
  unfold SubtaskString.mk?
  rw [h1, List.map_cons, h2]
  simp only [parseSegs, parseSeg, h3]

/-! ### Sum lemmas -/

theorem sum_toNat_int (l : List Int) (h : ∀ x ∈ l, 0 ≤ x) :
    (((l.map Int.toNat).sum : Nat) : Int) = l.sum := by
  induction l with
  | nil => simp
  | cons a l ih =>
    simp only [List.map_cons, List.sum_cons]
    rw [Nat.cast_add]
    rw [Int.toNat_of_nonneg (h a (List.mem_cons_self a l)),
        ih (fun x hx => h x (List.mem_cons_of_mem a hx))]

theorem nested_sum_toNat (f : Int × Int → Int) (gs : List (List (Int × Int)))
    (h : ∀ lg ∈ gs, ∀ pb ∈ lg, 0 ≤ f pb) :
    (((gs.map (fun lg => (lg.map (fun pb => (f pb).toNat)).sum)).sum : Nat) : Int) =
      (gs.map (fun lg => (lg.map f).sum)).sum := by
  induction gs with
  | nil => simp
  | cons lg gs ih =>
    simp only [List.map_cons, List.sum_cons]
    rw [Nat.cast_add]
    have h2 : lg.map (fun pb => (f pb).toNat) = (lg.map f).map Int.toNat := by
      rw [List.map_map]; rfl
    have h1 : (((lg.map (fun pb => (f pb).toNat)).sum : Nat) : Int) = (lg.map f).sum := by
      rw [h2]
      exact sum_toNat_int (lg.map f) (by
        intro x hx
        obtain ⟨pb, hpb, rfl⟩ := List.mem_map.mp hx
        exact h lg (List.mem_cons_self lg gs) pb hpb)
    rw [h1, ih (fun lg2 hlg2 => h lg2 (List.mem_cons_of_mem lg hlg2))]

/-! ### Sampler lemmas -/

theorem pickFold_cursor {σ : Type} (P : PRNG σ) (lg : List (Int × Int)) :
    ∀ (sh0 : List Nat) (c : Nat) (st : σ),
      (lg.foldl (pickStep P) (sh0, c, st)).2.1 =
        c + (lg.map (fun pb => pb.2.toNat)).sum := by
  induction lg with
  | nil => intro sh0 c st; simp
  | cons pb rest ih =>
    intro sh0 c st
    rw [List.foldl_cons,
        show pickStep P (sh0, c, st) pb =
          (sh0 ++ (P.sample st (List.range' c pb.2.toNat) pb.1.toNat).1,
           c + pb.2.toNat,
           (P.sample st (List.range' c pb.2.toNat) pb.1.toNat).2) from rfl,
        ih]
    simp only [List.map_cons, List.sum_cons]
    omega

theorem pickFold_spec {σ : Type} (P : PRNG σ) :
    ∀ (lg : List (Int × Int)),
      (∀ pb ∈ lg, 0 ≤ pb.1 ∧ 1 ≤ pb.2 ∧ pb.1 ≤ pb.2) →
      ∀ (sh0 : List Nat) (c : Nat) (st : σ),
      (lg.foldl (pickStep P) (sh0, c, st)).1.length =
          sh0.length + (lg.map (fun pb => pb.1.toNat)).sum ∧
      (∀ x ∈ (lg.foldl (pickStep P) (sh0, c, st)).1,
          x ∈ sh0 ∨ (c ≤ x ∧ x < (lg.foldl (pickStep P) (sh0, c, st)).2.1)) ∧
      (sh0.Nodup → (∀ x ∈ sh0, x < c) →
          (lg.foldl (pickStep P) (sh0, c, st)).1.Nodup) := by
  intro lg
  induction lg with
  | nil =>
    intro _ sh0 c st
    refine ⟨by simp, ?_, fun hnd _ => by simpa using hnd⟩
    intro x hx
    exact Or.inl (by simpa using hx)
  | cons pb rest ih =>
    intro hv sh0 c st
    obtain ⟨hp, hb, hpb⟩ := hv pb (List.mem_cons_self pb rest)
    have hvr := fun q hq => hv q (List.mem_cons_of_mem pb hq)
    have hlen : (P.sample st (List.range' c pb.2.toNat) pb.1.toNat).1.length
        = pb.1.toNat :=
      P.sample_length st _ _
        (by rw [List.length_range']; exact Int.toNat_le_toNat hpb)
    have hmem : ∀ x ∈ (P.sample st (List.range' c pb.2.toNat) pb.1.toNat).1,
        c ≤ x ∧ x < c + pb.2.toNat := by
      intro x hx
      exact List.mem_range'_1.mp (P.sample_subset st _ _ x hx)
    have hnd : (P.sample st (List.range' c pb.2.toNat) pb.1.toNat).1.Nodup :=
      P.sample_nodup st _ _ (List.nodup_range' c pb.2.toNat)
    rw [List.foldl_cons,
        show pickStep P (sh0, c, st) pb =
          (sh0 ++ (P.sample st (List.range' c pb.2.toNat) pb.1.toNat).1,
           c + pb.2.toNat,
           (P.sample st (List.range' c pb.2.toNat) pb.1.toNat).2) from rfl]
    obtain ⟨ihlen, ihmem, ihnd⟩ := ih hvr
        (sh0 ++ (P.sample st (List.range' c pb.2.toNat) pb.1.toNat).1)
        (c + pb.2.toNat)
        (P.sample st (List.range' c pb.2.toNat) pb.1.toNat).2
    have hcur := pickFold_cursor P rest
        (sh0 ++ (P.sample st (List.range' c pb.2.toNat) pb.1.toNat).1)
        (c + pb.2.toNat)
        (P.sample st (List.range' c pb.2.toNat) pb.1.toNat).2
    refine ⟨?_, ?_, ?_⟩
    · rw [ihlen]
      simp only [List.length_append, hlen, List.map_cons, List.sum_cons]
      omega
    · intro x hx
      rcases ihmem x hx with hx0 | ⟨hge, hlt⟩
      · rcases List.mem_append.mp hx0 with hx1 | hx2
        · exact Or.inl hx1
        · refine Or.inr ⟨(hmem x hx2).1, ?_⟩
          rw [hcur]
          have := (hmem x hx2).2
          omega
      · exact Or.inr ⟨by omega, hlt⟩
    · intro hnd0 hbound
      refine ihnd ?_ ?_
      · rw [List.nodup_append]
        refine ⟨hnd0, hnd, List.disjoint_left.mpr ?_⟩
        intro a ha ha2
        have h1 := hbound a ha
        have h2 := (hmem a ha2).1
        omega
      · intro x hx
        rcases List.mem_append.mp hx with hx1 | hx2
        · have := hbound x hx1
          omega
        · exact (hmem x hx2).2

theorem segStep_eq {σ : Type} (P : PRNG σ) (acc : List Nat) (c : Nat)
    (st : σ) (lg : List (Int × Int)) :
    segStep P (acc, c, st) lg =
      (acc ++ (P.shuffle (lg.foldl (pickStep P) ([], c, st)).2.2
                  (lg.foldl (pickStep P) ([], c, st)).1).1,
       (lg.foldl (pickStep P) ([], c, st)).2.1,
       (P.shuffle (lg.foldl (pickStep P) ([], c, st)).2.2
          (lg.foldl (pickStep P) ([], c, st)).1).2) := rfl

theorem segFold_spec {σ : Type} (P : PRNG σ) :
    ∀ (gs : List (List (Int × Int))),
      (∀ lg ∈ gs, ∀ pb ∈ lg, 0 ≤ pb.1 ∧ 1 ≤ pb.2 ∧ pb.1 ≤ pb.2) →
      ∀ (acc : List Nat) (c : Nat) (st : σ),
      (gs.foldl (segStep P) (acc, c, st)).2.1 =
          c + (gs.map (fun lg => (lg.map (fun pb => pb.2.toNat)).sum)).sum ∧
      (gs.foldl (segStep P) (acc, c, st)).1.length =
          acc.length + (gs.map (fun lg => (lg.map (fun pb => pb.1.toNat)).sum)).sum ∧
      (∀ x ∈ (gs.foldl (segStep P) (acc, c, st)).1,
          x ∈ acc ∨ (c ≤ x ∧ x < (gs.foldl (segStep P) (acc, c, st)).2.1)) ∧
      (acc.Nodup → (∀ x ∈ acc, x < c) →
          (gs.foldl (segStep P) (acc, c, st)).1.Nodup) := by
  intro gs
  induction gs with
  | nil =>
    intro _ acc c st
    refine ⟨by simp, by simp, ?_, fun hnd _ => by simpa using hnd⟩
    intro x hx
    exact Or.inl (by simpa using hx)
  | cons lg rest ih =>
    intro hv acc c st
    have hvlg := hv lg (List.mem_cons_self lg rest)
    have hvr := fun q hq => hv q (List.mem_cons_of_mem lg hq)
    obtain ⟨plen, pmem, pnd⟩ := pickFold_spec P lg hvlg [] c st
    have pcur := pickFold_cursor P lg [] c st
    have pmem2 : ∀ x ∈ (lg.foldl (pickStep P) ([], c, st)).1,
        c ≤ x ∧ x < (lg.foldl (pickStep P) ([], c, st)).2.1 := by
      intro x hx
      rcases pmem x hx with h0 | h1
      · exact absurd h0 (List.not_mem_nil x)
      · exact h1
    have pnd2 : (lg.foldl (pickStep P) ([], c, st)).1.Nodup :=
      pnd List.nodup_nil (fun x hx => absurd hx (List.not_mem_nil x))
    have hperm := P.shuffle_perm (lg.foldl (pickStep P) ([], c, st)).2.2
        (lg.foldl (pickStep P) ([], c, st)).1
    rw [List.foldl_cons, segStep_eq]
    obtain ⟨ihcur, ihlen, ihmem, ihnd⟩ := ih hvr
        (acc ++ (P.shuffle (lg.foldl (pickStep P) ([], c, st)).2.2
            (lg.foldl (pickStep P) ([], c, st)).1).1)
        (lg.foldl (pickStep P) ([], c, st)).2.1
        (P.shuffle (lg.foldl (pickStep P) ([], c, st)).2.2
            (lg.foldl (pickStep P) ([], c, st)).1).2
    refine ⟨?_, ?_, ?_, ?_⟩
    · rw [ihcur, pcur]
      simp only [List.map_cons, List.sum_cons]
      omega
    · rw [ihlen]
      simp only [List.length_append, hperm.length_eq, List.map_cons,
        List.sum_cons]
      rw [plen]
      simp only [List.length_nil]
      omega
    · intro x hx
      rcases ihmem x hx with hx0 | ⟨hge, hlt⟩
      · rcases List.mem_append.mp hx0 with hx1 | hx2
        · exact Or.inl hx1
        · have hx3 := pmem2 x (hperm.mem_iff.mp hx2)
          refine Or.inr ⟨hx3.1, ?_⟩
          have hle : (lg.foldl (pickStep P) ([], c, st)).2.1 ≤
              (rest.foldl (segStep P)
                (acc ++ (P.shuffle (lg.foldl (pickStep P) ([], c, st)).2.2
                    (lg.foldl (pickStep P) ([], c, st)).1).1,
                 (lg.foldl (pickStep P) ([], c, st)).2.1,
                 (P.shuffle (lg.foldl (pickStep P) ([], c, st)).2.2
                    (lg.foldl (pickStep P) ([], c, st)).1).2)).2.1 := by
            rw [ihcur]
            omega
          omega
      · refine Or.inr ⟨?_, hlt⟩
        rw [pcur] at hge
        omega
    · intro hnd0 hbound
      refine ihnd ?_ ?_
      · rw [List.nodup_append]
        refine ⟨hnd0, hperm.symm.nodup pnd2, List.disjoint_left.mpr ?_⟩
        intro a ha ha2
        have h1 := hbound a ha
        have h2 := (pmem2 a (hperm.mem_iff.mp ha2)).1
        omega
      · intro x hx
        rcases List.mem_append.mp hx with hx1 | hx2
        · have h1 := hbound x hx1
          rw [pcur]
          omega
        · exact (pmem2 x (hperm.mem_iff.mp hx2)).2

/-- Everything the cardinality claims need about a sampler run on a
successfully parsed spec. -/
theorem runGroups_parsed {σ : Type} (P : PRNG σ) {s : String}
    {spec : SubtaskSpec} (h : SubtaskString.mk? s = .ok spec) (st : σ) :
    ((runGroups P spec.groups st).2.1 : Int) = spec.total_bag ∧
    ((runGroups P spec.groups st).1.length : Int) = spec.total_pull ∧
    (runGroups P spec.groups st).1.Nodup ∧
    ∀ x ∈ (runGroups P spec.groups st).1, (x : Int) < spec.total_bag := by
  obtain ⟨_, hpull, hbag, hv⟩ := mk_ok_spec h
  obtain ⟨hcur, hlen, hmem, hnd⟩ := segFold_spec P spec.groups hv [] 0 st
  have hrg : runGroups P spec.groups st = spec.groups.foldl (segStep P) ([], 0, st) := rfl
  have hbagc : ((runGroups P spec.groups st).2.1 : Int) = spec.total_bag := by
    rw [hrg, hcur, hbag]
    have := nested_sum_toNat Prod.snd spec.groups
      (fun lg hlg pb hpb => by have := hv lg hlg pb hpb; omega)
    simpa using this
  refine ⟨hbagc, ?_, ?_, ?_⟩
  · rw [hrg, hlen, hpull]
    have := nested_sum_toNat Prod.fst spec.groups
      (fun lg hlg pb hpb => by have := hv lg hlg pb hpb; omega)
    simpa using this
  · rw [hrg]
    exact hnd List.nodup_nil (fun x hx => absurd hx (List.not_mem_nil x))
  · intro x hx
    rw [hrg] at hx
    rcases hmem x hx with h0 | ⟨_, hlt⟩
    · exact absurd h0 (List.not_mem_nil x)
    · calc (x : Int) < ((spec.groups.foldl (segStep P) ([], 0, st)).2.1 : Int) := by
            exact_mod_cast hlt
        _ = spec.total_bag := by rw [← hrg]; exact hbagc

/-! ### Concrete sampler computations -/

theorem sample_singleton {σ : Type} (P : PRNG σ) (st : σ) (a : Nat) :
    (P.sample st [a] 1).1 = [a] := by
  obtain ⟨b, hb⟩ := List.length_eq_one.mp (P.sample_length st [a] 1 (by simp))
  have hm : b ∈ [a] := P.sample_subset st [a] 1 b (hb ▸ List.mem_singleton_self b)
  rw [hb, List.mem_singleton.mp hm]

theorem shuffle_singleton {σ : Type} (P : PRNG σ) (st : σ) (a : Nat) :
    (P.shuffle st [a]).1 = [a] :=
  List.perm_singleton.mp (P.shuffle_perm st [a])

theorem sample_pair_one {σ : Type} (P : PRNG σ) (st : σ) (a b : Nat) :
    ∃ x, (P.sample st [a, b] 1).1 = [x] ∧ (x = a ∨ x = b) := by
  obtain ⟨x, hx⟩ := List.length_eq_one.mp (P.sample_length st [a, b] 1 (by simp))
  refine ⟨x, hx, ?_⟩
  have hm : x ∈ [a, b] :=
    P.sample_subset st [a, b] 1 x (hx ▸ List.mem_singleton_self x)
  simpa using hm

theorem perm_pair {a b : Nat} {l : List Nat} (h : l.Perm [a, b]) :
    l = [a, b] ∨ l = [b, a] := by
  have hlen : l.length = 2 := by simpa using h.length_eq
  obtain ⟨x, y, rfl⟩ := List.length_eq_two.mp hlen
  have hx : x = a ∨ x = b := by
    have : x ∈ [a, b] := h.mem_iff.mp (List.mem_cons_self x [y])
    simpa using this
  rcases hx with rfl | rfl
  · left
    have h1 : [y].Perm [b] := h.cons_inv
    rw [List.perm_singleton.mp h1]
  · right
    have h2 : [y].Perm [a] := (h.trans (List.Perm.swap x a [])).cons_inv
    rw [List.perm_singleton.mp h2]

/-- One `(1, 1)` segment moves the cursor by one and appends exactly the
consumed index. -/
theorem segStep_one_one {σ : Type} (P : PRNG σ) (acc : List Nat) (c : Nat)
    (st : σ) :
    segStep P (acc, c, st) [((1 : Int), (1 : Int))] =
      (acc ++ [c], c + 1,
       (P.shuffle (P.sample st [c] 1).2 (P.sample st [c] 1).1).2) := by
  rw [segStep_eq]
  have h1 : ([((1 : Int), (1 : Int))].foldl (pickStep P) ([], c, st)) =
      (([] : List Nat) ++ (P.sample st [c] 1).1, c + 1, (P.sample st [c] 1).2) := by
    rw [List.foldl_cons, List.foldl_nil]
    rfl
  rw [h1]
  simp only [List.nil_append]
  rw [sample_singleton, shuffle_singleton]

theorem segFold_replicate_ones {σ : Type} (P : PRNG σ) :
    ∀ (n : Nat) (acc : List Nat) (c : Nat) (st : σ), ∃ st2,
      (List.replicate n [((1 : Int), (1 : Int))]).foldl (segStep P) (acc, c, st) =
        (acc ++ List.range' c n, c + n, st2) := by
  intro n
  induction n with
  | zero => intro acc c st; exact ⟨st, by simp⟩
  | succ n ih =>
    intro acc c st
    rw [List.replicate_succ, List.foldl_cons, segStep_one_one]
    obtain ⟨st2, hst2⟩ := ih (acc ++ [c]) (c + 1)
        ((P.shuffle (P.sample st [c] 1).2 (P.sample st [c] 1).1).2)
    refine ⟨st2, ?_⟩
    rw [hst2, List.append_assoc]
    have hr : [c] ++ List.range' (c + 1) n = List.range' c (n + 1) := by
      rw [List.range'_succ]
      rfl
    rw [hr]
    have : c + 1 + n = c + (n + 1) := by omega
    rw [this]

/-! ### Claim theorems: the sampler -/

/-- C1: for every validated SubtaskSpec, the output of `sample_subtasks` is a
pure function of the spec and of the seed string `"{problem_id}#{seed}"`: the
generator is constructed fresh per call from that concatenation alone, so two
calls agreeing on it (in particular, two calls with identical
`(problem_id, seed)`) return identical sequences, with no dependence on call
order or shared state. -/
theorem sampler_deterministic {σ : Type} (P : PRNG σ) (s : String)
    (spec : SubtaskSpec) (h : SubtaskString.mk? s = .ok spec)
    (task_id seed task_id2 seed2 : String)
    (hseed : task_id ++ "#" ++ seed = task_id2 ++ "#" ++ seed2) :
    spec.sample_subtasks P task_id seed =
      spec.sample_subtasks P task_id2 seed2 := by
  unfold SubtaskSpec.sample_subtasks
  rw [hseed]

theorem sampler_deterministic_witness :
    SubtaskString.mk? "1;1/2,1" = .ok spec134 ∧
    spec134.sample_subtasks takePRNG "p" "s" =
      spec134.sample_subtasks takePRNG "p" "s" :=
  ⟨rfl, sampler_deterministic takePRNG "1;1/2,1" spec134 rfl "p" "s" "p" "s" rfl⟩

/-- C2: for every validated SubtaskSpec and every `(problem_id, seed)`, the
sampler succeeds and returns a list of length exactly `total_pull`, with no
duplicate indices, every element lying in `0 .. total_bag - 1`. -/
theorem sampler_cardinality {σ : Type} (P : PRNG σ) (s : String)
    (spec : SubtaskSpec) (h : SubtaskString.mk? s = .ok spec)
    (task_id seed : String) :
    ∃ l, spec.sample_subtasks P task_id seed = some l ∧
      (l.length : Int) = spec.total_pull ∧ l.Nodup ∧
      ∀ x ∈ l, 0 ≤ (x : Int) ∧ (x : Int) < spec.total_bag := by
  obtain ⟨hbag, hlen, hnd, hmem⟩ :=
    runGroups_parsed P h (P.init (task_id ++ "#" ++ seed))
  refine ⟨(runGroups P spec.groups (P.init (task_id ++ "#" ++ seed))).1,
    ?_, hlen, hnd, ?_⟩
  · have hs : spec.sample_subtasks P task_id seed =
        if ((runGroups P spec.groups (P.init (task_id ++ "#" ++ seed))).2.1 : Int) =
            spec.total_bag then
          some (runGroups P spec.groups (P.init (task_id ++ "#" ++ seed))).1
        else none := rfl
    rw [hs, if_pos hbag]
  · intro x hx
    exact ⟨Int.natCast_nonneg x, hmem x hx⟩

theorem sampler_cardinality_witness :
    ∃ l, spec134.sample_subtasks takePRNG "p" "s" = some l ∧
      (l.length : Int) = spec134.total_pull ∧ l.Nodup ∧
      ∀ x ∈ l, 0 ≤ (x : Int) ∧ (x : Int) < spec134.total_bag :=
  sampler_cardinality takePRNG "1;1/2,1" spec134 rfl "p" "s"

/-- C8: for every successfully constructed SubtaskString and every
`(problem_id, seed)`, the running bag cursor equals `total_bag` exactly after
all segments are processed, so the final assertion never fires and sampling
returns a result (no error path on validated input). -/
theorem sampler_cursor_invariant {σ : Type} (P : PRNG σ) (s : String)
    (spec : SubtaskSpec) (h : SubtaskString.mk? s = .ok spec)
    (task_id seed : String) :
    ((runGroups P spec.groups (P.init (task_id ++ "#" ++ seed))).2.1 : Int) =
        spec.total_bag ∧
    spec.sample_subtasks P task_id seed =
      some (runGroups P spec.groups (P.init (task_id ++ "#" ++ seed))).1 := by
  obtain ⟨hbag, _, _, _⟩ :=
    runGroups_parsed P h (P.init (task_id ++ "#" ++ seed))
  refine ⟨hbag, ?_⟩
  have hs : spec.sample_subtasks P task_id seed =
      if ((runGroups P spec.groups (P.init (task_id ++ "#" ++ seed))).2.1 : Int) =
          spec.total_bag then
        some (runGroups P spec.groups (P.init (task_id ++ "#" ++ seed))).1
      else none := rfl
  rw [hs, if_pos hbag]

theorem sampler_cursor_invariant_witness :
    ((runGroups takePRNG spec134.groups (takePRNG.init ("q" ++ "#" ++ "t"))).2.1 : Int) =
        spec134.total_bag ∧
    spec134.sample_subtasks takePRNG "q" "t" =
      some (runGroups takePRNG spec134.groups (takePRNG.init ("q" ++ "#" ++ "t"))).1 :=
  sampler_cursor_invariant takePRNG "1;1/2,1" spec134 rfl "q" "t"

/-- C3: for the spec string `"1;1/2,1"` (4 sub-questions) and every seed, the
result is `[0, x, 3]` or `[0, 3, x]` with `x ∈ {1, 2}`: the first element is
always `0`, the last two are a permutation of some `x ∈ {1, 2}` with `3`,
`0` never appears in a non-first position, and `3` is never omitted; segments
are emitted in declared order and only picks within one segment are shuffled
together. -/
theorem segment_order_concrete {σ : Type} (P : PRNG σ) (task_id seed : String) :
    SubtaskString.mk? "1;1/2,1" = .ok spec134 ∧
    ∃ x, (x = 1 ∨ x = 2) ∧
      (spec134.sample_subtasks P task_id seed = some [0, x, 3] ∨
       spec134.sample_subtasks P task_id seed = some [0, 3, x]) := by
  refine ⟨rfl, ?_⟩
  have inner : ∀ st : σ, ∃ x : Nat, (x = 1 ∨ x = 2) ∧
      ([((1 : Int), (2 : Int)), ((1 : Int), (1 : Int))].foldl (pickStep P)
          ([], 1, st)) =
        ([x, 3], 4, (P.sample (P.sample st [1, 2] 1).2 [3] 1).2) := by
    intro st
    obtain ⟨x, hx1, hx2⟩ := sample_pair_one P st 1 2
    refine ⟨x, hx2, ?_⟩
    have p1 : pickStep P ([], 1, st) ((1 : Int), (2 : Int)) =
        ([x], 3, (P.sample st [1, 2] 1).2) := by
      rw [show pickStep P ([], 1, st) ((1 : Int), (2 : Int)) =
          ((P.sample st [1, 2] 1).1, 3, (P.sample st [1, 2] 1).2) from rfl, hx1]
    have p2 : pickStep P ([x], 3, (P.sample st [1, 2] 1).2) ((1 : Int), (1 : Int)) =
        ([x, 3], 4, (P.sample (P.sample st [1, 2] 1).2 [3] 1).2) := by
      rw [show pickStep P ([x], 3, (P.sample st [1, 2] 1).2) ((1 : Int), (1 : Int)) =
          ([x] ++ (P.sample (P.sample st [1, 2] 1).2 [3] 1).1, 4,
           (P.sample (P.sample st [1, 2] 1).2 [3] 1).2) from rfl,
        sample_singleton]
      rfl
    rw [List.foldl_cons, p1, List.foldl_cons, p2, List.foldl_nil]
  have key : ∀ st0 : σ, ∃ x : Nat, (x = 1 ∨ x = 2) ∧
      ((runGroups P spec134.groups st0).1 = [0, x, 3] ∨
       (runGroups P spec134.groups st0).1 = [0, 3, x]) ∧
      (runGroups P spec134.groups st0).2.1 = 4 := by
    intro st0
    have h1 : runGroups P spec134.groups st0 =
        [[((1 : Int), (2 : Int)), ((1 : Int), (1 : Int))]].foldl (segStep P)
          (segStep P ([], 0, st0) [((1 : Int), (1 : Int))]) := rfl
    obtain ⟨x, hx12, hinner⟩ := inner
        ((P.shuffle (P.sample st0 [0] 1).2 (P.sample st0 [0] 1).1).2)
    rw [h1, segStep_one_one, List.foldl_cons, List.foldl_nil]
    simp only [List.nil_append, Nat.zero_add]
    rw [segStep_eq, hinner]
    simp only
    rcases perm_pair (P.shuffle_perm
        (P.sample (P.sample
          ((P.shuffle (P.sample st0 [0] 1).2 (P.sample st0 [0] 1).1).2)
          [1, 2] 1).2 [3] 1).2 [x, 3]) with hsh | hsh
    · exact ⟨x, hx12, Or.inl (by rw [hsh]; rfl), trivial⟩
    · exact ⟨x, hx12, Or.inr (by rw [hsh]; rfl), trivial⟩
  obtain ⟨x, hx12, hres, hcur⟩ := key (P.init (task_id ++ "#" ++ seed))
  refine ⟨x, hx12, ?_⟩
  have hs : spec134.sample_subtasks P task_id seed =
      if ((runGroups P spec134.groups (P.init (task_id ++ "#" ++ seed))).2.1 : Int) =
          spec134.total_bag then
        some (runGroups P spec134.groups (P.init (task_id ++ "#" ++ seed))).1
      else none := rfl
  rw [hs, hcur, if_pos (by decide)]
  rcases hres with h | h
  · exact Or.inl (by rw [h])
  · exact Or.inr (by rw [h])

/-- The parsed form of the default string for five subtasks. -/
def spec5 : SubtaskSpec :=
  ⟨"1;1;1;1;1", 5, 5, List.replicate 5 [(1, 1)]⟩

/-- C6: the default SubtaskString for 5 subtasks is the one parsed from
`"1;1;1;1;1"` (same string, totals and groups), its sampling shows every
sub-question once, in order, with no randomization, for every generator and
seed; and the default ScoreString for 5 subtasks is the one parsed from
`"0/5/5"`, i.e. `(minimum, expected, total) = (0, 5, 5)`. -/
theorem default_matches_explicit {σ : Type} (P : PRNG σ)
    (task_id seed : String) :
    SubtaskString.default_for_subtasks 5 = SubtaskString.mk? "1;1;1;1;1" ∧
    SubtaskString.mk? "1;1;1;1;1" = .ok spec5 ∧
    spec5.total_bag = 5 ∧ spec5.total_pull = 5 ∧
    spec5.sample_subtasks P task_id seed = some [0, 1, 2, 3, 4] ∧
    ScoreString.default_for_subtasks 5 = ScoreString.mk? "0/5/5" ∧
    ScoreString.mk? "0/5/5" = .ok ⟨"0/5/5", 0, 5, 5⟩ := by
  refine ⟨rfl, rfl, rfl, rfl, ?_, rfl, rfl⟩
  obtain ⟨st2, hfold⟩ :=
    segFold_replicate_ones P 5 [] 0 (P.init (task_id ++ "#" ++ seed))
  have hrun : runGroups P spec5.groups (P.init (task_id ++ "#" ++ seed)) =
      ([] ++ List.range' 0 5, 0 + 5, st2) := by
    rw [show runGroups P spec5.groups (P.init (task_id ++ "#" ++ seed)) =
        (List.replicate 5 [((1 : Int), (1 : Int))]).foldl (segStep P)
          ([], 0, P.init (task_id ++ "#" ++ seed)) from rfl, hfold]
  have hs : spec5.sample_subtasks P task_id seed =
      if ((runGroups P spec5.groups (P.init (task_id ++ "#" ++ seed))).2.1 : Int) =
          spec5.total_bag then
        some (runGroups P spec5.groups (P.init (task_id ++ "#" ++ seed))).1
      else none := rfl
  rw [hs, hrun]
  simp only [List.nil_append, Nat.zero_add]
  rw [if_pos (by decide)]
  rfl

/-! ### Claim theorems: the score string -/

/-- C9: the dedicated negative-total branch of `ScoreString.__init__` is
unreachable: reaching it requires `0 ≤ minimum ≤ total`, which already forces
`0 ≤ total`, so the "Total score can not be negative" error is never the one
raised, for any input string. -/
theorem negative_total_unreachable (s : String) :
    ScoreString.mk? s ≠ .error .negativeTotal := by
  unfold ScoreString.mk?
  split
  · split
    · split_ifs with h1 h2 h3
      · simp
      · simp
      · exfalso; omega
      · simp
    · simp
  · simp

theorem negative_total_unreachable_witness :
    ScoreString.mk? "0/0/0" ≠ .error .negativeTotal :=
  negative_total_unreachable "0/0/0"

/-- C7: `ScoreString.__init__` fails with the wrong-arity error exactly when
the string does not split into three `/`-fields; with the non-integer-field
error exactly when it has three fields and one of them fails `int()`; with
the minimum-out-of-range error exactly when the fields parse and
`minimum < 0 ∨ minimum > total`; with the expected-out-of-range error exactly
when the fields parse, the minimum check passes, and
`expected < 0 ∨ expected > total`; and succeeds otherwise.  In particular
`"6/3/5"` and `"1/6/5"` fail and `"0/5/5"` yields `(0, 5, 5)`. -/
theorem score_error_taxonomy (s : String) :
    (ScoreString.mk? s = .error .wrongParts ↔
        (splitChar '/' s.toList).length ≠ 3) ∧
    (∀ a b c, splitChar '/' s.toList = [a, b, c] →
      (ScoreString.mk? s = .error .illegalScore ↔
          (pyIntChars a = none ∨ pyIntChars b = none ∨ pyIntChars c = none)) ∧
      ∀ m e t, pyIntChars a = some m → pyIntChars b = some e →
        pyIntChars c = some t →
        (ScoreString.mk? s = .error .minimumRange ↔ (m < 0 ∨ m > t)) ∧
        (ScoreString.mk? s = .error .expectedRange ↔
            (¬(m < 0 ∨ m > t) ∧ (e < 0 ∨ e > t))) ∧
        (¬(m < 0 ∨ m > t) → ¬(e < 0 ∨ e > t) →
            ScoreString.mk? s = .ok ⟨s, m, e, t⟩)) ∧
    ScoreString.mk? "6/3/5" = .error .minimumRange ∧
    ScoreString.mk? "1/6/5" = .error .expectedRange ∧
    ScoreString.mk? "0/5/5" = .ok ⟨"0/5/5", 0, 5, 5⟩ := by
  refine ⟨?_, ?_, rfl, rfl, rfl⟩
  · rcases hsp : splitChar '/' s.toList with _ | ⟨a, _ | ⟨b, _ | ⟨c, _ | ⟨d, rest⟩⟩⟩⟩
    · unfold ScoreString.mk?
      rw [hsp]
      simp
    · unfold ScoreString.mk?
      rw [hsp]
      simp
    · unfold ScoreString.mk?
      rw [hsp]
      simp
    · unfold ScoreString.mk?
      rw [hsp]
      dsimp only
      cases hA : pyIntChars a <;> cases hB : pyIntChars b <;>
        cases hC : pyIntChars c <;> simp
      split_ifs <;> simp
    · unfold ScoreString.mk?
      rw [hsp]
      simp
  · intro a b c hsp
    constructor
    · unfold ScoreString.mk?
      rw [hsp]
      dsimp only
      cases hA : pyIntChars a <;> cases hB : pyIntChars b <;>
        cases hC : pyIntChars c <;> simp
      split_ifs <;> simp
    · intro m e t hm he ht
      unfold ScoreString.mk?
      rw [hsp]
      dsimp only
      rw [hm, he, ht]
      dsimp only
      refine ⟨?_, ?_, ?_⟩
      · split_ifs with h1 h2 h3 <;> simp <;> omega
      · split_ifs with h1 h2 h3 <;> simp <;> omega
      · intro h1 h2
        rw [if_neg h1, if_neg h2, if_neg (by omega)]

/-! ### Claim theorems: parsing and problem construction -/

/-- C4: `SubtaskString` construction parses semicolon-separated segments of
comma-separated groups (a bare integer `n` meaning `pull = bag = n`, `p/b`
meaning pull `p` of bag `b`, as `parseGroup` defines); it succeeds exactly
when every token parses and satisfies `0 ≤ pull`, `1 ≤ bag`, `pull ≤ bag`;
any failure carries the error of some offending token, and per token the
error is malformed-group exactly on an `int()` (or `/`-arity) failure,
negative-pull exactly when `pull < 0`, empty-bag exactly when the pull check
passes and `bag < 1`, and pull-exceeds-bag exactly when both pass and
`pull > bag`. -/
theorem parse_error_taxonomy (s : String) :
    ((∃ spec, SubtaskString.mk? s = .ok spec) ↔
        ∀ g ∈ allTokens s, ∃ p b, parseGroup g = some (p, b) ∧
          0 ≤ p ∧ 1 ≤ b ∧ p ≤ b) ∧
    (∀ e, SubtaskString.mk? s = .error e →
        ∃ g ∈ allTokens s, checkGroup g = .error e) ∧
    (∀ g : List Char, checkGroup g = .error .illegalGroup ↔
        parseGroup g = none) ∧
    (∀ g : List Char, checkGroup g = .error .negativePull ↔
        ∃ p b, parseGroup g = some (p, b) ∧ p < 0) ∧
    (∀ g : List Char, checkGroup g = .error .emptyBag ↔
        ∃ p b, parseGroup g = some (p, b) ∧ 0 ≤ p ∧ b < 1) ∧
    (∀ g : List Char, checkGroup g = .error .pullExceedsBag ↔
        ∃ p b, parseGroup g = some (p, b) ∧ 0 ≤ p ∧ 1 ≤ b ∧ b < p) := by
  refine ⟨?_, fun e h => mk_error_tokens h, checkGroup_illegal_iff,
    checkGroup_negative_iff, checkGroup_empty_iff, checkGroup_exceeds_iff⟩
  rw [mk_ok_iff]
  constructor
  · intro h g hg
    exact (checkGroup_ok_iff g).mp (h g hg)
  · intro h g hg
    exact (checkGroup_ok_iff g).mpr (h g hg)

/-- C5: for every successfully parsed SubtaskString, `total_pull` and
`total_bag` are the sums of the declared pulls and bags; and
`MultifillProblem.__init__`, once it reaches the cross-check, fails with the
bag/sub-question mismatch error whenever `total_bag` differs from the number
of declared subtasks. -/
theorem totals_and_bag_mismatch (s : String) (spec : SubtaskSpec)
    (h : SubtaskString.mk? s = .ok spec) :
    spec.total_pull = (spec.groups.map (fun lg => (lg.map Prod.fst).sum)).sum ∧
    spec.total_bag = (spec.groups.map (fun lg => (lg.map Prod.snd).sum)).sum ∧
    ∀ (c : Content) (subs : List Subtask),
      c.subtasks = some subs →
      checkTexts 0 subs = .ok () →
      chosenSubtaskString c subs = .ok spec →
      (subs.length : Int) ≠ spec.total_bag →
      mkMultifillProblem c = .error (.bagMismatch subs.length spec.total_bag) := by
  obtain ⟨_, h1, h2, _⟩ := mk_ok_spec h
  refine ⟨h1, h2, ?_⟩
  intro c subs hsubs htexts hchosen hne
  unfold mkMultifillProblem
  rw [hsubs]
  dsimp only
  rw [htexts]
  dsimp only
  rw [hchosen]
  dsimp only
  rw [if_pos hne]

/-- The parsed form of `"1;1"`. -/
def spec11 : SubtaskSpec := ⟨"1;1", 2, 2, [[(1, 1)], [(1, 1)]]⟩

/-- Three subtasks, all with text. -/
def subs3 : List Subtask := [⟨some "x"⟩, ⟨some "y"⟩, ⟨some "z"⟩]

/-- A content dict with three subtasks but a two-bag subtask string. -/
def content3 : Content := ⟨"", some subs3, some "1;1", none⟩

theorem totals_and_bag_mismatch_witness :
    spec11.total_pull = (spec11.groups.map (fun lg => (lg.map Prod.fst).sum)).sum ∧
    spec11.total_bag = (spec11.groups.map (fun lg => (lg.map Prod.snd).sum)).sum ∧
    mkMultifillProblem content3 = .error (.bagMismatch 3 2) := by
  obtain ⟨w1, w2, w3⟩ := totals_and_bag_mismatch "1;1" spec11 rfl
  exact ⟨w1, w2, w3 content3 subs3 rfl rfl rfl (by decide)⟩

/-- C10: calling the `SubtaskString` constructor on the empty string (or any
string all of whose group tokens are empty) fails with the malformed-group
error rather than producing the default; `MultifillProblem.__init__`
substitutes the synthesized default exactly when the supplied
`subtask_string` is absent or strips to the empty string, and parses the
supplied string itself otherwise. -/
theorem empty_string_behaviour :
    SubtaskString.mk? "" = .error .illegalGroup ∧
    (∀ s : String, (∀ g ∈ allTokens s, g = []) →
        SubtaskString.mk? s = .error .illegalGroup) ∧
    (∀ (c : Content) (subs : List Subtask),
        c.subtask_string = none ∨ pyStrip (c.subtask_string.getD "") = "" →
        chosenSubtaskString c subs =
          SubtaskString.default_for_subtasks subs.length) ∧
    (∀ (c : Content) (subs : List Subtask),
        pyStrip (c.subtask_string.getD "") ≠ "" →
        chosenSubtaskString c subs =
          SubtaskString.mk? (c.subtask_string.getD "")) := by
  refine ⟨rfl, ?_, ?_, ?_⟩
  · intro s hall
    obtain ⟨seg, segs, hsegs⟩ : ∃ seg segs, splitChar ';' s.toList = seg :: segs := by
      cases hs : splitChar ';' s.toList with
      | nil => exact absurd hs (splitChar_ne_nil ';' s.toList)
      | cons seg segs => exact ⟨seg, segs, rfl⟩
    obtain ⟨g, gs, hgs⟩ : ∃ g gs, splitChar ',' seg = g :: gs := by
      cases hg : splitChar ',' seg with
      | nil => exact absurd hg (splitChar_ne_nil ',' seg)
      | cons g gs => exact ⟨g, gs, rfl⟩
    have hmem : g ∈ allTokens s := by
      simp only [allTokens, List.mem_flatten, List.mem_map]
      exact ⟨splitChar ',' seg,
        ⟨seg, by rw [hsegs]; exact List.mem_cons_self seg segs, rfl⟩,
        by rw [hgs]; exact List.mem_cons_self g gs⟩
    have hge : g = [] := hall g hmem
    rw [hge] at hgs
    exact mk_error_of_head hsegs hgs rfl
  · intro c subs hc
    have hstrip : pyStrip (c.subtask_string.getD "") = "" := by
      rcases hc with hc | hc
      · rw [hc]; rfl
      · exact hc
    unfold chosenSubtaskString
    rw [if_neg (by rw [hstrip]; exact fun hne => hne rfl)]
  · intro c subs hc
    unfold chosenSubtaskString
    rw [if_pos hc]

/-! ### Additional closed witnesses -/

theorem segment_order_concrete_witness :
    SubtaskString.mk? "1;1/2,1" = .ok spec134 ∧
    ∃ x, (x = 1 ∨ x = 2) ∧
      (spec134.sample_subtasks takePRNG "w" "u" = some [0, x, 3] ∨
       spec134.sample_subtasks takePRNG "w" "u" = some [0, 3, x]) :=
  segment_order_concrete takePRNG "w" "u"

theorem default_matches_explicit_witness :
    SubtaskString.default_for_subtasks 5 = SubtaskString.mk? "1;1;1;1;1" ∧
    SubtaskString.mk? "1;1;1;1;1" = .ok spec5 ∧
    spec5.total_bag = 5 ∧ spec5.total_pull = 5 ∧
    spec5.sample_subtasks takePRNG "w" "v" = some [0, 1, 2, 3, 4] ∧
    ScoreString.default_for_subtasks 5 = ScoreString.mk? "0/5/5" ∧
    ScoreString.mk? "0/5/5" = .ok ⟨"0/5/5", 0, 5, 5⟩ :=
  default_matches_explicit takePRNG "w" "v"

theorem parse_error_taxonomy_witness :
    ((∃ spec, SubtaskString.mk? "2/1" = .ok spec) ↔
        ∀ g ∈ allTokens "2/1", ∃ p b, parseGroup g = some (p, b) ∧
          0 ≤ p ∧ 1 ≤ b ∧ p ≤ b) ∧
    (∀ e, SubtaskString.mk? "2/1" = .error e →
        ∃ g ∈ allTokens "2/1", checkGroup g = .error e) ∧
    (∀ g : List Char, checkGroup g = .error .illegalGroup ↔
        parseGroup g = none) ∧
    (∀ g : List Char, checkGroup g = .error .negativePull ↔
        ∃ p b, parseGroup g = some (p, b) ∧ p < 0) ∧
    (∀ g : List Char, checkGroup g = .error .emptyBag ↔
        ∃ p b, parseGroup g = some (p, b) ∧ 0 ≤ p ∧ b < 1) ∧
    (∀ g : List Char, checkGroup g = .error .pullExceedsBag ↔
        ∃ p b, parseGroup g = some (p, b) ∧ 0 ≤ p ∧ 1 ≤ b ∧ b < p) :=
  parse_error_taxonomy "2/1"

theorem score_error_taxonomy_witness :
    (ScoreString.mk? "6/3/5" = .error .wrongParts ↔
        (splitChar '/' "6/3/5".toList).length ≠ 3) ∧
    (∀ a b c, splitChar '/' "6/3/5".toList = [a, b, c] →
      (ScoreString.mk? "6/3/5" = .error .illegalScore ↔
          (pyIntChars a = none ∨ pyIntChars b = none ∨ pyIntChars c = none)) ∧
      ∀ m e t, pyIntChars a = some m → pyIntChars b = some e →
        pyIntChars c = some t →
        (ScoreString.mk? "6/3/5" = .error .minimumRange ↔ (m < 0 ∨ m > t)) ∧
        (ScoreString.mk? "6/3/5" = .error .expectedRange ↔
            (¬(m < 0 ∨ m > t) ∧ (e < 0 ∨ e > t))) ∧
        (¬(m < 0 ∨ m > t) → ¬(e < 0 ∨ e > t) →
            ScoreString.mk? "6/3/5" = .ok ⟨"6/3/5", m, e, t⟩)) ∧
    ScoreString.mk? "6/3/5" = .error .minimumRange ∧
    ScoreString.mk? "1/6/5" = .error .expectedRange ∧
    ScoreString.mk? "0/5/5" = .ok ⟨"0/5/5", 0, 5, 5⟩ :=
  score_error_taxonomy "6/3/5"

/-- A content dict whose subtask string is whitespace only. -/
def contentWs : Content := ⟨"", some subs3, some "  ", none⟩

theorem empty_string_behaviour_witness :
    SubtaskString.mk? "" = .error .illegalGroup ∧
    SubtaskString.mk? ";," = .error .illegalGroup ∧
    chosenSubtaskString contentWs subs3 =
      SubtaskString.default_for_subtasks subs3.length ∧
    chosenSubtaskString content3 subs3 = SubtaskString.mk? "1;1" :=
  ⟨empty_string_behaviour.1,
   empty_string_behaviour.2.1 ";," (by decide),
   empty_string_behaviour.2.2.1 contentWs subs3 (Or.inr rfl),
   empty_string_behaviour.2.2.2 content3 subs3 (by decide)⟩

end Multifill
